import Mathlib

/-!
Shallow embedding of the range-accrual fixed coupons and pricers of
ql/cashflows/fxrangeaccrualfixed.{hpp,cpp} and the two versions of
ql/cashflows/cmsrangeaccrualfixed.cpp contained in the repository
(the plain Bachelier pricer and the replication-capable pricer with an
optional Hagan CMS pricer).

Modelling conventions:
  - Date is a serial number (Nat); Real is Rat.
  - An index fixing lookup may throw in the source; it is modelled as
    an Option-valued function (none = the lookup throws).
  - The transcendental functions used by the option-formula branch
    (sqrt, log, the cumulative normal Phi) are parameters of the model,
    gathered in the Analytic structure; the claims proved below do not
    depend on their values.
  - The std::map<std::string, Real> of additional results is modelled
    as an insertion-ordered association list over an injective key type
    RKey mirroring the string keys of the source; the value bound to a
    key is the last one written (exactly the std::map semantics, since
    each write is either operator-bracket insert into a freshly cleared
    map with distinct keys, or a keyed overwrite).
-/

/-- Key space of the additionalResults diagnostic mapping.  The source
uses strings: "indexObservation_YYYY-MM-DD" etc. per observation date,
plus the two summary keys "daysInRange" and "observationDays". -/
inductive RKey where
  | indexObservation (d : Nat)
  | standardDevLow (d : Nat)
  | standardDevUpp (d : Nat)
  | inRangeProbability (d : Nat)
  | daysInRange
  | observationDays
deriving DecidableEq, Repr

/-- Insertion-ordered diagnostics mapping, last write wins. -/
abbrev ResultsMap := List (RKey × ℚ)

/-- Lookup in the diagnostics mapping, last write wins (std::map keyed
overwrite semantics). -/
def mapGet (m : ResultsMap) (k : RKey) : Option ℚ :=
  m.reverse.lookup k

/-- The transcendental functions consumed by the pricers, abstracted:
std::sqrt, std::log and CumulativeNormalDistribution. -/
structure Analytic where
  sqrt : ℚ → ℚ
  log : ℚ → ℚ
  Phi : ℚ → ℚ

/-- Market data seen by the FX pricer: the volatility structure's
reference date, blackVariance(d, strike, extrapolate=true), and the FX
index's fixing(d) (none models a thrown lookup error). -/
structure FxMarket where
  refDate : Nat
  fixing : Nat → Option ℚ
  blackVariance : Nat → ℚ → ℚ

/-- The immutable data of a constructed FxRangeAccrualFixedCoupon that
the calculations read: the FixedRateCoupon base data (nominal, rate and
the day-count fraction of the accrual period), the observation schedule
dates and the trigger band. -/
structure FxCoupon where
  nominal : ℚ
  rate : ℚ
  dcf : ℚ
  observationDates : List Nat
  lowerTrigger : ℚ
  upperTrigger : ℚ

/-- Numerical floor of the FX pricer: minStd = 0.0005 (1 percent times
sqrt of one day). -/
def fxMinStd : ℚ := 1 / 2000

/-- Boundary standard deviations of the FX pricer at observation date d:
zero unless d is past the volatility reference date, else
sqrt(max(blackVariance(d, trigger, true), 0)) at each trigger. -/
def fxStdDevs (A : Analytic) (mkt : FxMarket) (cp : FxCoupon) (d : Nat) : ℚ × ℚ :=
  if mkt.refDate < d then
    (A.sqrt (max (mkt.blackVariance d cp.lowerTrigger) 0),
     A.sqrt (max (mkt.blackVariance d cp.upperTrigger) 0))
  else (0, 0)

/-- Per-observation-date computation of FxRangeAccrualFixedCouponPricer
initialize, given the index observation: returns
(standardDevLow, standardDevUpp, inRangeProbability). -/
def fxObsCalc (A : Analytic) (mkt : FxMarket) (cp : FxCoupon) (d : Nat)
    (indexObservation : ℚ) : ℚ × ℚ × ℚ :=
  let sd := fxStdDevs A mkt cp d
  let standardDevLow := sd.1
  let standardDevUpp := sd.2
  let inRangeProbability :=
    if standardDevLow < fxMinStd then
      -- intrinsic value branch
      if cp.lowerTrigger ≤ indexObservation ∧ indexObservation ≤ cp.upperTrigger
      then (1 : ℚ) else 0
    else
      -- put option spread valuation
      let d2Lower := A.log (indexObservation / cp.lowerTrigger) / standardDevLow -
                     standardDevLow / 2
      let d2Upper := A.log (indexObservation / cp.upperTrigger) / standardDevUpp -
                     standardDevUpp / 2
      let putLower := A.Phi (-d2Lower)
      let putUpper := A.Phi (-d2Upper)
      putUpper - putLower
  (standardDevLow, standardDevUpp, inRangeProbability)

/-- The cached state of a pricer: rangeAccrual_ and additionalResults_. -/
structure PricerState where
  rangeAccrual : ℚ
  additionalResults : ResultsMap
deriving DecidableEq, Repr

/-- The four per-date diagnostic entries written at the end of each loop
iteration of initialize. -/
def fxEntriesFor (A : Analytic) (mkt : FxMarket) (cp : FxCoupon) (d : Nat)
    (obs : ℚ) : ResultsMap :=
  let c := fxObsCalc A mkt cp d obs
  [(RKey.indexObservation d, obs),
   (RKey.standardDevLow d, c.1),
   (RKey.standardDevUpp d, c.2.1),
   (RKey.inRangeProbability d, c.2.2)]

/-- The observation loop of FxRangeAccrualFixedCouponPricer initialize,
threading the daysInRange accumulator and the (already cleared)
diagnostics map; the Bool is false when a fixing lookup throws, in which
case the partially accumulated map is what the exception leaves behind. -/
def fxInitLoop (A : Analytic) (mkt : FxMarket) (cp : FxCoupon) :
    List Nat → ℚ → ResultsMap → ℚ × ResultsMap × Bool
  | [], days, res => (days, res, true)
  | d :: ds, days, res =>
    match mkt.fixing d with
    | none => (days, res, false)
    | some obs =>
      let c := fxObsCalc A mkt cp d obs
      fxInitLoop A mkt cp ds (days + c.2.2) (res ++ fxEntriesFor A mkt cp d obs)

/-- FxRangeAccrualFixedCouponPricer::initialize.  Clears the diagnostics
map, runs the observation loop, and on completion sets rangeAccrual_ to
daysInRange divided by the schedule length and appends the two summary
entries.  On a thrown fixing lookup (Bool false) rangeAccrual_ keeps its
previous value and the map holds the partial per-date entries. -/
def fxInitializePricer (A : Analytic) (mkt : FxMarket) (cp : FxCoupon)
    (st : PricerState) : PricerState × Bool :=
  let r := fxInitLoop A mkt cp cp.observationDates 0 []
  if r.2.2 then
    ({ rangeAccrual := r.1 / (cp.observationDates.length : ℚ),
       additionalResults := r.2.1 ++
         [(RKey.daysInRange, r.1),
          (RKey.observationDays, (cp.observationDates.length : ℚ))] }, true)
  else
    ({ rangeAccrual := st.rangeAccrual, additionalResults := r.2.1 }, false)

/-- Null of Real in QuantLib: std::numeric_limits of float max,
(2 to the 24 minus 1) times 2 to the 104. -/
def nullReal : ℚ := (2 ^ 24 - 1) * 2 ^ 104

/-- FxRangeAccrualFixedCouponPricer constructor state: rangeAccrual_ is
initialized to Null of Real and the diagnostics map is empty. -/
def fxPricerCtor : PricerState :=
  { rangeAccrual := nullReal, additionalResults := [] }

/-- FxRangeAccrualFixedCouponPricer::rangeAccrual: plain accessor,
no calculation and no error. -/
def fxPricerRangeAccrual (st : PricerState) : ℚ := st.rangeAccrual

/-- The cached results of a coupon: mutable rangeAccrual_ (constructed
as 0.0) and additionalResults_ (constructed empty). -/
structure CouponResults where
  rangeAccrual : ℚ
  additionalResults : ResultsMap
deriving DecidableEq, Repr

/-- Joint state of a coupon and its (optional) bound pricer. -/
structure FxEvalState where
  coupon : CouponResults
  pricer : Option PricerState
deriving DecidableEq, Repr

/-- FxRangeAccrualFixedCoupon::setPricer: rebinds the pricer reference
and marks the coupon dirty; the cached results are untouched. -/
def fxSetPricer (st : FxEvalState) (p : Option PricerState) : FxEvalState :=
  { coupon := st.coupon, pricer := p }

/-- The fall-back counting loop of FxRangeAccrualFixedCoupon
performCalculations (no pricer bound): accumulates 1.0 per date whose
fixing lies in the closed trigger interval; none models a thrown fixing
lookup, leaving the coupon state untouched. -/
def fxFallbackLoop (mkt : FxMarket) (cp : FxCoupon) :
    List Nat → ℚ → Option ℚ
  | [], acc => some acc
  | d :: ds, acc =>
    match mkt.fixing d with
    | none => none
    | some obs =>
      fxFallbackLoop mkt cp ds
        (if cp.lowerTrigger ≤ obs ∧ obs ≤ cp.upperTrigger then acc + 1 else acc)

/-- FxRangeAccrualFixedCoupon::performCalculations.  With a pricer:
initialize, then copy the pricer's rangeAccrual and additionalResults
into the coupon.  Without: the closed-interval counting fall-back,
updating only rangeAccrual_.  The Bool is false when a fixing lookup
throws; the exception propagates leaving the states as modelled. -/
def fxPerformCalculations (A : Analytic) (mkt : FxMarket) (cp : FxCoupon)
    (st : FxEvalState) : FxEvalState × Bool :=
  match st.pricer with
  | some ps =>
    let r := fxInitializePricer A mkt cp ps
    if r.2 then
      ({ coupon := { rangeAccrual := r.1.rangeAccrual,
                     additionalResults := r.1.additionalResults },
         pricer := some r.1 }, true)
    else
      ({ coupon := st.coupon, pricer := some r.1 }, false)
  | none =>
    match fxFallbackLoop mkt cp cp.observationDates 0 with
    | none => (st, false)
    | some inRange =>
      ({ coupon := { rangeAccrual := inRange / (cp.observationDates.length : ℚ),
                     additionalResults := st.coupon.additionalResults },
         pricer := none }, true)

/-- Modelled from the spec: FixedRateCoupon::amount (base class, not in
src/) — baseFixedAmount = nominal * rate * dayCountFraction(accrualStart,
accrualEnd) for the simply-compounded rate the coupon constructor builds. -/
def fixedRateCouponAmount (nominal rate dcf : ℚ) : ℚ :=
  nominal * rate * dcf

/-- FxRangeAccrualFixedCoupon::rangeAccrual: calculate then return the
cached rangeAccrual_; none when the calculation throws. -/
def fxRangeAccrualEval (A : Analytic) (mkt : FxMarket) (cp : FxCoupon)
    (st : FxEvalState) : Option ℚ :=
  let r := fxPerformCalculations A mkt cp st
  if r.2 then some r.1.coupon.rangeAccrual else none

/-- FxRangeAccrualFixedCoupon::amount: calculate then return
rangeAccrual_ times the base FixedRateCoupon amount; none when the
calculation throws. -/
def fxAmountEval (A : Analytic) (mkt : FxMarket) (cp : FxCoupon)
    (st : FxEvalState) : Option ℚ :=
  let r := fxPerformCalculations A mkt cp st
  if r.2 then
    some (r.1.coupon.rangeAccrual * fixedRateCouponAmount cp.nominal cp.rate cp.dcf)
  else none

/-- The optional external CMS option pricer capability (HaganPricer):
convexity-adjusted caplet and floorlet rates per strike. -/
structure HaganPricer where
  capletRate : ℚ → ℚ
  floorletRate : ℚ → ℚ

/-- Market data seen by the CMS pricers: the swaption volatility
structure's reference date, blackVariance(d, swapTerm, strike,
extrapolate=true), the swap index's fixing(d) (none models a thrown
lookup), and the optional Hagan replication pricer. -/
structure CmsMarket where
  refDate : Nat
  fixing : Nat → Option ℚ
  blackVariance : Nat → Nat → ℚ → ℚ
  hagan : Option HaganPricer

/-- The immutable data of a constructed CmsRangeAccrualFixedCoupon read
by the calculations; tenor is the swap index's tenor (swapTerm). -/
structure CmsCoupon where
  nominal : ℚ
  rate : ℚ
  dcf : ℚ
  paymentDate : Nat
  tenor : Nat
  observationDates : List Nat
  lowerTrigger : ℚ
  upperTrigger : ℚ

/-- Numerical floor of the CMS pricers: minStd = 0.000005 (1bp times
sqrt of one day). -/
def cmsMinStd : ℚ := 1 / 200000

/-- Boundary standard deviations of the CMS pricers at observation date
d: zero unless d is past the volatility reference date, else
sqrt(max(blackVariance(d, swapTerm, trigger, true), 0)). -/
def cmsStdDevs (A : Analytic) (mkt : CmsMarket) (cp : CmsCoupon) (d : Nat) : ℚ × ℚ :=
  if mkt.refDate < d then
    (A.sqrt (max (mkt.blackVariance d cp.tenor cp.lowerTrigger) 0),
     A.sqrt (max (mkt.blackVariance d cp.tenor cp.upperTrigger) 0))
  else (0, 0)

/-- Per-observation-date computation of the plain Bachelier
CmsRangeAccrualFixedCouponPricer initialize (the version without a
Hagan pricer): returns (standardDevLow, standardDevUpp,
inRangeProbability). -/
def cmsObsCalc (A : Analytic) (mkt : CmsMarket) (cp : CmsCoupon) (d : Nat)
    (indexObservation : ℚ) : ℚ × ℚ × ℚ :=
  let sd := cmsStdDevs A mkt cp d
  let standardDevLow := sd.1
  let standardDevUpp := sd.2
  let inRangeProbability :=
    if standardDevLow < cmsMinStd then
      -- intrinsic value branch
      if cp.lowerTrigger ≤ indexObservation ∧ indexObservation ≤ cp.upperTrigger
      then (1 : ℚ) else 0
    else
      -- put option spread valuation (Bachelier digitals)
      let hLower := (cp.lowerTrigger - indexObservation) / standardDevLow
      let hUpper := (cp.upperTrigger - indexObservation) / standardDevUpp
      let putLower := A.Phi hLower
      let putUpper := A.Phi hUpper
      putUpper - putLower
  (standardDevLow, standardDevUpp, inRangeProbability)

/-- The four per-date diagnostic entries of the plain CMS pricer loop. -/
def cmsEntriesFor (A : Analytic) (mkt : CmsMarket) (cp : CmsCoupon) (d : Nat)
    (obs : ℚ) : ResultsMap :=
  let c := cmsObsCalc A mkt cp d obs
  [(RKey.indexObservation d, obs),
   (RKey.standardDevLow d, c.1),
   (RKey.standardDevUpp d, c.2.1),
   (RKey.inRangeProbability d, c.2.2)]

/-- Observation loop of the plain Bachelier
CmsRangeAccrualFixedCouponPricer initialize. -/
def cmsInitLoop (A : Analytic) (mkt : CmsMarket) (cp : CmsCoupon) :
    List Nat → ℚ → ResultsMap → ℚ × ResultsMap × Bool
  | [], days, res => (days, res, true)
  | d :: ds, days, res =>
    match mkt.fixing d with
    | none => (days, res, false)
    | some obs =>
      let c := cmsObsCalc A mkt cp d obs
      cmsInitLoop A mkt cp ds (days + c.2.2) (res ++ cmsEntriesFor A mkt cp d obs)

/-- Plain Bachelier CmsRangeAccrualFixedCouponPricer::initialize. -/
def cmsInitializePricer (A : Analytic) (mkt : CmsMarket) (cp : CmsCoupon)
    (st : PricerState) : PricerState × Bool :=
  let r := cmsInitLoop A mkt cp cp.observationDates 0 []
  if r.2.2 then
    ({ rangeAccrual := r.1 / (cp.observationDates.length : ℚ),
       additionalResults := r.2.1 ++
         [(RKey.daysInRange, r.1),
          (RKey.observationDays, (cp.observationDates.length : ℚ))] }, true)
  else
    ({ rangeAccrual := st.rangeAccrual, additionalResults := r.2.1 }, false)

/-- CmsRangeAccrualFixedCouponPricer constructor state (either
constructor): rangeAccrual_ is Null of Real, diagnostics empty. -/
def cmsPricerCtor : PricerState :=
  { rangeAccrual := nullReal, additionalResults := [] }

/-- CmsRangeAccrualFixedCouponPricer::rangeAccrual: plain accessor. -/
def cmsPricerRangeAccrual (st : PricerState) : ℚ := st.rangeAccrual

/-- CmsRangeAccrualFixedCouponPricer::cmsPutOption (replication-capable
version): digital put value at optionStrike via a call spread of Hagan
caplet rates when the strike is above the current swap rate fixing, else
a put spread of floorlet rates; spreadWidth strictly positive is
required, and the swap rate fixing lookup may throw (none).  The
CmsCoupon the source builds serves only to feed the Hagan pricer, which
is abstracted by the capletRate and floorletRate capabilities. -/
def cmsPutOption (H : HaganPricer) (mkt : CmsMarket) (exerciseDate : Nat)
    (optionStrike spreadWidth : ℚ) : Option ℚ :=
  if spreadWidth ≤ 0 then none
  else
    match mkt.fixing exerciseDate with
    | none => none
    | some swapRate =>
      if optionStrike > swapRate then
        -- call spread, numerically preferred side
        let calPlus := H.capletRate (optionStrike + spreadWidth / 2)
        let calMins := H.capletRate (optionStrike - spreadWidth / 2)
        some (1 - (calMins - calPlus) / spreadWidth)
      else
        let putPlus := H.floorletRate (optionStrike + spreadWidth / 2)
        let putMins := H.floorletRate (optionStrike - spreadWidth / 2)
        some ((putPlus - putMins) / spreadWidth)

/-- Default spread width of cmsPutOption: 1bp. -/
def cmsSpreadWidth : ℚ := 1 / 10000

/-- One boundary put value of the replication-capable CMS pricer:
intrinsic (1 iff the observation is strictly below the strike) when the
boundary standard deviation is under the floor, else Hagan replication
when available, else the Bachelier digital. -/
def cmsReplPut (A : Analytic) (mkt : CmsMarket) (d : Nat)
    (obs strike stdDev : ℚ) : Option ℚ :=
  if stdDev < cmsMinStd then
    some (if obs < strike then (1 : ℚ) else 0)
  else
    match mkt.hagan with
    | some H => cmsPutOption H mkt d strike cmsSpreadWidth
    | none => some (A.Phi ((strike - obs) / stdDev))

/-- Per-observation-date computation of the replication-capable
CmsRangeAccrualFixedCouponPricer initialize: returns
(standardDevLow, standardDevUpp, inRangeProbability), none when a
replication valuation throws. -/
def cmsReplObsCalc (A : Analytic) (mkt : CmsMarket) (cp : CmsCoupon) (d : Nat)
    (indexObservation : ℚ) : Option (ℚ × ℚ × ℚ) :=
  let sd := cmsStdDevs A mkt cp d
  match cmsReplPut A mkt d indexObservation cp.lowerTrigger sd.1 with
  | none => none
  | some putLow =>
    match cmsReplPut A mkt d indexObservation cp.upperTrigger sd.2 with
    | none => none
    | some putUpp => some (sd.1, sd.2, putUpp - putLow)

/-- Constructor argument checks of the explicit-schedule
FxRangeAccrualFixedCoupon constructor, in QL_REQUIRE order; the Bool
arguments are the non-nullness of the schedule and index references. -/
def fxCtorExplicitChecks (schedule index : Bool) (lowerTrigger upperTrigger : ℚ) :
    Except String Unit :=
  if !schedule then .error "observationsSchedule_ required."
  else if !index then .error "fxIndex_ required."
  else if ¬ (lowerTrigger > 0) then .error "lowerTrigger_ > 0.0 required."
  else if ¬ (lowerTrigger < upperTrigger) then .error "lowerTrigger_ < upperTrigger_ required."
  else .ok ()

/-- Constructor argument checks of the derived-schedule
FxRangeAccrualFixedCoupon constructor: the schedule is freshly built
(never null), so only the index and trigger checks can fire.  (The
member-initializer list dereferences the index before the body runs;
that is outside this model.) -/
def fxCtorDerivedChecks (index : Bool) (lowerTrigger upperTrigger : ℚ) :
    Except String Unit :=
  if !index then .error "fxIndex_ required."
  else if ¬ (lowerTrigger > 0) then .error "lowerTrigger_ > 0.0 required."
  else if ¬ (lowerTrigger < upperTrigger) then .error "lowerTrigger_ < upperTrigger_ required."
  else .ok ()

/-- Constructor argument checks of the explicit-schedule
CmsRangeAccrualFixedCoupon constructor (identical in both versions of
the CMS source file). -/
def cmsCtorExplicitChecks (schedule index : Bool) (lowerTrigger upperTrigger : ℚ) :
    Except String Unit :=
  if !schedule then .error "observationsSchedule_ required."
  else if !index then .error "cmsIndex_ required."
  else if ¬ (lowerTrigger > 0) then .error "lowerTrigger_ > 0.0 required."
  else if ¬ (lowerTrigger < upperTrigger) then .error "lowerTrigger_ < upperTrigger_ required."
  else .ok ()

/-- Constructor argument checks of the derived-schedule
CmsRangeAccrualFixedCoupon constructor (identical in both versions of
the CMS source file): the lowerTrigger > 0 check is absent. -/
def cmsCtorDerivedChecks (index : Bool) (lowerTrigger upperTrigger : ℚ) :
    Except String Unit :=
  if !index then .error "cmsIndex_ required."
  else if ¬ (lowerTrigger < upperTrigger) then .error "lowerTrigger_ < upperTrigger_ required."
  else .ok ()

/-- The fall-back counting loop of CmsRangeAccrualFixedCoupon
performCalculations (no pricer bound), closed trigger interval. -/
def cmsFallbackLoop (mkt : CmsMarket) (cp : CmsCoupon) :
    List Nat → ℚ → Option ℚ
  | [], acc => some acc
  | d :: ds, acc =>
    match mkt.fixing d with
    | none => none
    | some obs =>
      cmsFallbackLoop mkt cp ds
        (if cp.lowerTrigger ≤ obs ∧ obs ≤ cp.upperTrigger then acc + 1 else acc)

/-- Joint state of a CMS coupon and its (optional) bound plain pricer. -/
structure CmsEvalState where
  coupon : CouponResults
  pricer : Option PricerState
deriving DecidableEq, Repr

/-- CmsRangeAccrualFixedCoupon::performCalculations (bound to the plain
Bachelier pricer when a pricer is present). -/
def cmsPerformCalculations (A : Analytic) (mkt : CmsMarket) (cp : CmsCoupon)
    (st : CmsEvalState) : CmsEvalState × Bool :=
  match st.pricer with
  | some ps =>
    let r := cmsInitializePricer A mkt cp ps
    if r.2 then
      ({ coupon := { rangeAccrual := r.1.rangeAccrual,
                     additionalResults := r.1.additionalResults },
         pricer := some r.1 }, true)
    else
      ({ coupon := st.coupon, pricer := some r.1 }, false)
  | none =>
    match cmsFallbackLoop mkt cp cp.observationDates 0 with
    | none => (st, false)
    | some inRange =>
      ({ coupon := { rangeAccrual := inRange / (cp.observationDates.length : ℚ),
                     additionalResults := st.coupon.additionalResults },
         pricer := none }, true)

/-- CmsRangeAccrualFixedCoupon::rangeAccrual. -/
def cmsRangeAccrualEval (A : Analytic) (mkt : CmsMarket) (cp : CmsCoupon)
    (st : CmsEvalState) : Option ℚ :=
  let r := cmsPerformCalculations A mkt cp st
  if r.2 then some r.1.coupon.rangeAccrual else none

/-- CmsRangeAccrualFixedCoupon::amount. -/
def cmsAmountEval (A : Analytic) (mkt : CmsMarket) (cp : CmsCoupon)
    (st : CmsEvalState) : Option ℚ :=
  let r := cmsPerformCalculations A mkt cp st
  if r.2 then
    some (r.1.coupon.rangeAccrual * fixedRateCouponAmount cp.nominal cp.rate cp.dcf)
  else none

/-- The per-date intrinsic in-range probability as the claim words it:
putUpper minus putLower, where each boundary's intrinsic put value is 1
if the index observation is strictly below that boundary's strike and 0
otherwise. -/
def specIntrinsicProbability (obs lowerStrike upperStrike : ℚ) : ℚ :=
  (if obs < upperStrike then (1 : ℚ) else 0) -
  (if obs < lowerStrike then (1 : ℚ) else 0)

/-- Per-date in-range probability of the FX pricer at a date whose
fixing is available. -/
def fxProbOf (A : Analytic) (mkt : FxMarket) (cp : FxCoupon) (d : Nat) : ℚ :=
  (fxObsCalc A mkt cp d ((mkt.fixing d).getD 0)).2.2

/-- Concatenated per-date diagnostic entries of the FX pricer loop. -/
def fxEntriesList (A : Analytic) (mkt : FxMarket) (cp : FxCoupon) :
    List Nat → ResultsMap
  | [] => []
  | d :: ds =>
    fxEntriesFor A mkt cp d ((mkt.fixing d).getD 0) ++ fxEntriesList A mkt cp ds

/-- Per-date in-range probability of the plain CMS pricer at a date
whose fixing is available. -/
def cmsProbOf (A : Analytic) (mkt : CmsMarket) (cp : CmsCoupon) (d : Nat) : ℚ :=
  (cmsObsCalc A mkt cp d ((mkt.fixing d).getD 0)).2.2

/-- Concatenated per-date diagnostic entries of the plain CMS pricer
loop. -/
def cmsEntriesList (A : Analytic) (mkt : CmsMarket) (cp : CmsCoupon) :
    List Nat → ResultsMap
  | [] => []
  | d :: ds =>
    cmsEntriesFor A mkt cp d ((mkt.fixing d).getD 0) ++ cmsEntriesList A mkt cp ds

/-- The closed-interval in-band test of the no-pricer fall-back, on the
fixing of a date (Bool form for counting). -/
def fxInBand (mkt : FxMarket) (cp : FxCoupon) (d : Nat) : Bool :=
  decide (cp.lowerTrigger ≤ (mkt.fixing d).getD 0 ∧
          (mkt.fixing d).getD 0 ≤ cp.upperTrigger)

/-- CMS version of the closed-interval in-band test. -/
def cmsInBand (mkt : CmsMarket) (cp : CmsCoupon) (d : Nat) : Bool :=
  decide (cp.lowerTrigger ≤ (mkt.fixing d).getD 0 ∧
          (mkt.fixing d).getD 0 ≤ cp.upperTrigger)

/-- Concrete transcendental functions for witnesses (their values are
irrelevant to the statements instantiated). -/
def A0 : Analytic := { sqrt := fun x => x, log := fun x => x, Phi := fun x => x }

/-- Concrete FX market: all fixings 1.5, zero variance, reference date 0. -/
def mkt0 : FxMarket :=
  { refDate := 0, fixing := fun _ => some (3 / 2), blackVariance := fun _ _ => 0 }

/-- Concrete FX coupon over two observation dates with band [1, 2]. -/
def cp0 : FxCoupon :=
  { nominal := 100, rate := 1 / 20, dcf := 1 / 2,
    observationDates := [1, 2], lowerTrigger := 1, upperTrigger := 2 }

/-- Concrete CMS market: all fixings 1.5, zero variance, no Hagan pricer. -/
def cmkt0 : CmsMarket :=
  { refDate := 0, fixing := fun _ => some (3 / 2),
    blackVariance := fun _ _ _ => 0, hagan := none }

/-- Concrete CMS coupon over two observation dates with band [1, 2]. -/
def ccp0 : CmsCoupon :=
  { nominal := 100, rate := 1 / 20, dcf := 1 / 2, paymentDate := 30, tenor := 10,
    observationDates := [1, 2], lowerTrigger := 1, upperTrigger := 2 }

/-- Concrete FX market whose fixing lookup throws on every date except
date 0. -/
def mktFail : FxMarket :=
  { refDate := 0, fixing := fun d => if d = 0 then some 1 else none,
    blackVariance := fun _ _ => 0 }

/-- Concrete FX market for the C4 counterexample: reference date 10 (all
observation dates are in the past), fixings at 2. -/
def mktC4 : FxMarket :=
  { refDate := 10, fixing := fun _ => some 2, blackVariance := fun _ _ => 0 }

/-- Concrete FX coupon with band [1, 2] observing date 5. -/
def cpBand : FxCoupon :=
  { nominal := 1, rate := 1, dcf := 1,
    observationDates := [5], lowerTrigger := 1, upperTrigger := 2 }

/-- Concrete FX coupon observing dates 0 and 1 (date 1 has no fixing in
mktFail). -/
def cpFail : FxCoupon :=
  { nominal := 1, rate := 1, dcf := 1,
    observationDates := [0, 1], lowerTrigger := 1, upperTrigger := 2 }

/-- Concrete evaluation state with previously computed diagnostics. -/
def stFail : FxEvalState :=
  { coupon := ⟨5, [(RKey.daysInRange, 42)]⟩,
    pricer := some ⟨7, [(RKey.daysInRange, 42)]⟩ }

/-- Concrete evaluation state with a freshly constructed pricer bound. -/
def stW : FxEvalState := { coupon := ⟨0, []⟩, pricer := some fxPricerCtor }

section Lemmas

lemma mapGet_summary (xs : ResultsMap) (a b : ℚ) :
    mapGet (xs ++ [(RKey.daysInRange, a), (RKey.observationDays, b)])
        RKey.daysInRange = some a ∧
    mapGet (xs ++ [(RKey.daysInRange, a), (RKey.observationDays, b)])
        RKey.observationDays = some b := by
  constructor
  · simp [mapGet, List.lookup]
    rfl
  · simp [mapGet, List.lookup]

lemma fxFallbackLoop_eq (mkt : FxMarket) (cp : FxCoupon) (dates : List Nat)
    (h : ∀ d ∈ dates, (mkt.fixing d).isSome) (acc : ℚ) :
    fxFallbackLoop mkt cp dates acc =
      some (acc + (dates.countP (fxInBand mkt cp) : ℚ)) := by
  induction dates generalizing acc with
  | nil => simp [fxFallbackLoop]
  | cons d ds ih =>
    obtain ⟨obs, hobs⟩ := Option.isSome_iff_exists.mp (h d (by simp))
    have hds : ∀ x ∈ ds, (mkt.fixing x).isSome := fun x hx => h x (by simp [hx])
    simp only [fxFallbackLoop, hobs]
    rw [ih hds]
    have hband : fxInBand mkt cp d =
        decide (cp.lowerTrigger ≤ obs ∧ obs ≤ cp.upperTrigger) := by
      simp [fxInBand, hobs]
    rw [List.countP_cons, hband]
    by_cases hc : cp.lowerTrigger ≤ obs ∧ obs ≤ cp.upperTrigger
    · rw [if_pos hc, decide_eq_true hc, if_pos rfl]
      congr 1
      push_cast
      ring
    · rw [if_neg hc, decide_eq_false hc]
      simp

lemma cmsFallbackLoop_eq (mkt : CmsMarket) (cp : CmsCoupon) (dates : List Nat)
    (h : ∀ d ∈ dates, (mkt.fixing d).isSome) (acc : ℚ) :
    cmsFallbackLoop mkt cp dates acc =
      some (acc + (dates.countP (cmsInBand mkt cp) : ℚ)) := by
  induction dates generalizing acc with
  | nil => simp [cmsFallbackLoop]
  | cons d ds ih =>
    obtain ⟨obs, hobs⟩ := Option.isSome_iff_exists.mp (h d (by simp))
    have hds : ∀ x ∈ ds, (mkt.fixing x).isSome := fun x hx => h x (by simp [hx])
    simp only [cmsFallbackLoop, hobs]
    rw [ih hds]
    have hband : cmsInBand mkt cp d =
        decide (cp.lowerTrigger ≤ obs ∧ obs ≤ cp.upperTrigger) := by
      simp [cmsInBand, hobs]
    rw [List.countP_cons, hband]
    by_cases hc : cp.lowerTrigger ≤ obs ∧ obs ≤ cp.upperTrigger
    · rw [if_pos hc, decide_eq_true hc, if_pos rfl]
      congr 1
      push_cast
      ring
    · rw [if_neg hc, decide_eq_false hc]
      simp

lemma fxInitLoop_eq (A : Analytic) (mkt : FxMarket) (cp : FxCoupon)
    (dates : List Nat) (h : ∀ d ∈ dates, (mkt.fixing d).isSome)
    (acc : ℚ) (res : ResultsMap) :
    fxInitLoop A mkt cp dates acc res =
      (acc + (dates.map (fxProbOf A mkt cp)).sum,
       res ++ fxEntriesList A mkt cp dates, true) := by
  induction dates generalizing acc res with
  | nil => simp [fxInitLoop, fxEntriesList]
  | cons d ds ih =>
    obtain ⟨obs, hobs⟩ := Option.isSome_iff_exists.mp (h d (by simp))
    have hds : ∀ x ∈ ds, (mkt.fixing x).isSome := fun x hx => h x (by simp [hx])
    simp only [fxInitLoop, hobs]
    rw [ih hds]
    have hprob : fxProbOf A mkt cp d = (fxObsCalc A mkt cp d obs).2.2 := by
      simp [fxProbOf, hobs]
    have hent : fxEntriesList A mkt cp (d :: ds) =
        fxEntriesFor A mkt cp d obs ++ fxEntriesList A mkt cp ds := by
      simp [fxEntriesList, hobs]
    rw [List.map_cons, List.sum_cons, hprob, hent]
    refine Prod.ext (by ring) (Prod.ext ?_ rfl)
    simp [List.append_assoc]

lemma cmsInitLoop_eq (A : Analytic) (mkt : CmsMarket) (cp : CmsCoupon)
    (dates : List Nat) (h : ∀ d ∈ dates, (mkt.fixing d).isSome)
    (acc : ℚ) (res : ResultsMap) :
    cmsInitLoop A mkt cp dates acc res =
      (acc + (dates.map (cmsProbOf A mkt cp)).sum,
       res ++ cmsEntriesList A mkt cp dates, true) := by
  induction dates generalizing acc res with
  | nil => simp [cmsInitLoop, cmsEntriesList]
  | cons d ds ih =>
    obtain ⟨obs, hobs⟩ := Option.isSome_iff_exists.mp (h d (by simp))
    have hds : ∀ x ∈ ds, (mkt.fixing x).isSome := fun x hx => h x (by simp [hx])
    simp only [cmsInitLoop, hobs]
    rw [ih hds]
    have hprob : cmsProbOf A mkt cp d = (cmsObsCalc A mkt cp d obs).2.2 := by
      simp [cmsProbOf, hobs]
    have hent : cmsEntriesList A mkt cp (d :: ds) =
        cmsEntriesFor A mkt cp d obs ++ cmsEntriesList A mkt cp ds := by
      simp [cmsEntriesList, hobs]
    rw [List.map_cons, List.sum_cons, hprob, hent]
    refine Prod.ext (by ring) (Prod.ext ?_ rfl)
    simp [List.append_assoc]

end Lemmas

/-- C1: for every range-accrual coupon (FX and CMS) in any pricer
configuration (no pricer, or a bound pricer), amount() equals
rangeAccrual() * nominal * rate * dayCountFraction(accrualStart,
accrualEnd), the last three factors being the base fixed-coupon amount. -/
theorem amount_eq_rangeAccrual_mul_base
    (A : Analytic) (mktF : FxMarket) (cpF : FxCoupon) (stF : FxEvalState)
    (mktC : CmsMarket) (cpC : CmsCoupon) (stC : CmsEvalState) :
    fxAmountEval A mktF cpF stF =
      (fxRangeAccrualEval A mktF cpF stF).map
        (fun ra => ra * (cpF.nominal * cpF.rate * cpF.dcf)) ∧
    cmsAmountEval A mktC cpC stC =
      (cmsRangeAccrualEval A mktC cpC stC).map
        (fun ra => ra * (cpC.nominal * cpC.rate * cpC.dcf)) := by
  constructor
  · simp only [fxAmountEval, fxRangeAccrualEval, fixedRateCouponAmount]
    split <;> simp
  · simp only [cmsAmountEval, cmsRangeAccrualEval, fixedRateCouponAmount]
    split <;> simp

/-- C2: with no pricer bound and every observation date's fixing
available, rangeAccrual() equals the number of observation dates whose
fixing lies in the closed interval [lowerTrigger, upperTrigger] divided
by the total number of observation dates (FX and CMS coupons). -/
theorem fallback_rangeAccrual_eq_count_div_total
    (A : Analytic) (mktF : FxMarket) (cpF : FxCoupon) (c0 : CouponResults)
    (mktC : CmsMarket) (cpC : CmsCoupon) (c1 : CouponResults)
    (hF : ∀ d ∈ cpF.observationDates, (mktF.fixing d).isSome)
    (hC : ∀ d ∈ cpC.observationDates, (mktC.fixing d).isSome)
    (_hneF : cpF.observationDates ≠ []) (_hneC : cpC.observationDates ≠ []) :
    fxRangeAccrualEval A mktF cpF { coupon := c0, pricer := none } =
      some ((cpF.observationDates.countP (fxInBand mktF cpF) : ℚ) /
            (cpF.observationDates.length : ℚ)) ∧
    cmsRangeAccrualEval A mktC cpC { coupon := c1, pricer := none } =
      some ((cpC.observationDates.countP (cmsInBand mktC cpC) : ℚ) /
            (cpC.observationDates.length : ℚ)) := by
  constructor
  · simp only [fxRangeAccrualEval, fxPerformCalculations,
      fxFallbackLoop_eq mktF cpF cpF.observationDates hF 0]
    simp
  · simp only [cmsRangeAccrualEval, cmsPerformCalculations,
      cmsFallbackLoop_eq mktC cpC cpC.observationDates hC 0]
    simp

/-- C2 witness at concrete inputs. -/
theorem fallback_rangeAccrual_eq_count_div_total_witness :
    fxRangeAccrualEval A0 mkt0 cp0 { coupon := ⟨0, []⟩, pricer := none } =
      some ((cp0.observationDates.countP (fxInBand mkt0 cp0) : ℚ) /
            (cp0.observationDates.length : ℚ)) ∧
    cmsRangeAccrualEval A0 cmkt0 ccp0 { coupon := ⟨0, []⟩, pricer := none } =
      some ((ccp0.observationDates.countP (cmsInBand cmkt0 ccp0) : ℚ) /
            (ccp0.observationDates.length : ℚ)) :=
  fallback_rangeAccrual_eq_count_div_total A0 mkt0 cp0 ⟨0, []⟩ cmkt0 ccp0 ⟨0, []⟩
    (by decide) (by decide) (by decide) (by decide)

/-- C3: with a pricer bound and every fixing available on a non-empty
schedule, initialize succeeds and sets the pricer's rangeAccrual to the
sum over schedule dates of the per-date in-range probability divided by
the schedule length, and records daysInRange (the sum) and
observationDays (the length) in the additional-results mapping. -/
theorem initialize_avg_prob_and_summaries
    (A : Analytic) (mktF : FxMarket) (cpF : FxCoupon) (stF : PricerState)
    (mktC : CmsMarket) (cpC : CmsCoupon) (stC : PricerState)
    (hF : ∀ d ∈ cpF.observationDates, (mktF.fixing d).isSome)
    (hC : ∀ d ∈ cpC.observationDates, (mktC.fixing d).isSome)
    (_hneF : cpF.observationDates ≠ []) (_hneC : cpC.observationDates ≠ []) :
    ((fxInitializePricer A mktF cpF stF).2 = true ∧
     (fxInitializePricer A mktF cpF stF).1.rangeAccrual =
       (cpF.observationDates.map (fxProbOf A mktF cpF)).sum /
         (cpF.observationDates.length : ℚ) ∧
     mapGet (fxInitializePricer A mktF cpF stF).1.additionalResults RKey.daysInRange =
       some ((cpF.observationDates.map (fxProbOf A mktF cpF)).sum) ∧
     mapGet (fxInitializePricer A mktF cpF stF).1.additionalResults RKey.observationDays =
       some ((cpF.observationDates.length : ℚ))) ∧
    ((cmsInitializePricer A mktC cpC stC).2 = true ∧
     (cmsInitializePricer A mktC cpC stC).1.rangeAccrual =
       (cpC.observationDates.map (cmsProbOf A mktC cpC)).sum /
         (cpC.observationDates.length : ℚ) ∧
     mapGet (cmsInitializePricer A mktC cpC stC).1.additionalResults RKey.daysInRange =
       some ((cpC.observationDates.map (cmsProbOf A mktC cpC)).sum) ∧
     mapGet (cmsInitializePricer A mktC cpC stC).1.additionalResults RKey.observationDays =
       some ((cpC.observationDates.length : ℚ))) := by
  constructor
  · have hloop := fxInitLoop_eq A mktF cpF cpF.observationDates hF 0 []
    simp only [fxInitializePricer, hloop]
    refine ⟨rfl, by simp, ?_, ?_⟩
    · simpa using
        (mapGet_summary (fxEntriesList A mktF cpF cpF.observationDates)
          (0 + (cpF.observationDates.map (fxProbOf A mktF cpF)).sum)
          ((cpF.observationDates.length : ℚ))).1
    · simpa using
        (mapGet_summary (fxEntriesList A mktF cpF cpF.observationDates)
          (0 + (cpF.observationDates.map (fxProbOf A mktF cpF)).sum)
          ((cpF.observationDates.length : ℚ))).2
  · have hloop := cmsInitLoop_eq A mktC cpC cpC.observationDates hC 0 []
    simp only [cmsInitializePricer, hloop]
    refine ⟨rfl, by simp, ?_, ?_⟩
    · simpa using
        (mapGet_summary (cmsEntriesList A mktC cpC cpC.observationDates)
          (0 + (cpC.observationDates.map (cmsProbOf A mktC cpC)).sum)
          ((cpC.observationDates.length : ℚ))).1
    · simpa using
        (mapGet_summary (cmsEntriesList A mktC cpC cpC.observationDates)
          (0 + (cpC.observationDates.map (cmsProbOf A mktC cpC)).sum)
          ((cpC.observationDates.length : ℚ))).2

/-- C3 witness at concrete inputs. -/
theorem initialize_avg_prob_and_summaries_witness :
    ((fxInitializePricer A0 mkt0 cp0 fxPricerCtor).2 = true ∧
     (fxInitializePricer A0 mkt0 cp0 fxPricerCtor).1.rangeAccrual =
       (cp0.observationDates.map (fxProbOf A0 mkt0 cp0)).sum /
         (cp0.observationDates.length : ℚ) ∧
     mapGet (fxInitializePricer A0 mkt0 cp0 fxPricerCtor).1.additionalResults RKey.daysInRange =
       some ((cp0.observationDates.map (fxProbOf A0 mkt0 cp0)).sum) ∧
     mapGet (fxInitializePricer A0 mkt0 cp0 fxPricerCtor).1.additionalResults RKey.observationDays =
       some ((cp0.observationDates.length : ℚ))) ∧
    ((cmsInitializePricer A0 cmkt0 ccp0 cmsPricerCtor).2 = true ∧
     (cmsInitializePricer A0 cmkt0 ccp0 cmsPricerCtor).1.rangeAccrual =
       (ccp0.observationDates.map (cmsProbOf A0 cmkt0 ccp0)).sum /
         (ccp0.observationDates.length : ℚ) ∧
     mapGet (cmsInitializePricer A0 cmkt0 ccp0 cmsPricerCtor).1.additionalResults RKey.daysInRange =
       some ((ccp0.observationDates.map (cmsProbOf A0 cmkt0 ccp0)).sum) ∧
     mapGet (cmsInitializePricer A0 cmkt0 ccp0 cmsPricerCtor).1.additionalResults RKey.observationDays =
       some ((ccp0.observationDates.length : ℚ))) :=
  initialize_avg_prob_and_summaries A0 mkt0 cp0 fxPricerCtor cmkt0 ccp0 cmsPricerCtor
    (by decide) (by decide) (by decide) (by decide)

lemma fxCtorExplicitChecks_ok_iff (s i : Bool) (l u : ℚ) :
    fxCtorExplicitChecks s i l u = .ok () ↔
      s = true ∧ i = true ∧ 0 < l ∧ l < u := by
  unfold fxCtorExplicitChecks
  by_cases hl : l > 0 <;> by_cases hu : l < u <;> cases s <;> cases i <;>
    simp [hl, hu]

lemma fxCtorDerivedChecks_ok_iff (i : Bool) (l u : ℚ) :
    fxCtorDerivedChecks i l u = .ok () ↔ i = true ∧ 0 < l ∧ l < u := by
  unfold fxCtorDerivedChecks
  by_cases hl : l > 0 <;> by_cases hu : l < u <;> cases i <;>
    simp [hl, hu]

lemma cmsCtorExplicitChecks_ok_iff (s i : Bool) (l u : ℚ) :
    cmsCtorExplicitChecks s i l u = .ok () ↔
      s = true ∧ i = true ∧ 0 < l ∧ l < u := by
  unfold cmsCtorExplicitChecks
  by_cases hl : l > 0 <;> by_cases hu : l < u <;> cases s <;> cases i <;>
    simp [hl, hu]

lemma cmsCtorDerivedChecks_ok_iff (i : Bool) (l u : ℚ) :
    cmsCtorDerivedChecks i l u = .ok () ↔ i = true ∧ l < u := by
  unfold cmsCtorDerivedChecks
  by_cases hu : l < u <;> cases i <;> simp [hu]

lemma specIntrinsicProbability_eq_one_iff (obs l u : ℚ) :
    specIntrinsicProbability obs l u = 1 ↔ l ≤ obs ∧ obs < u := by
  unfold specIntrinsicProbability
  by_cases h1 : obs < u
  · by_cases h2 : obs < l
    · rw [if_pos h1, if_pos h2]
      constructor
      · intro h
        exact absurd h (by norm_num)
      · intro h
        exact absurd h.1 (not_le.mpr h2)
    · rw [if_pos h1, if_neg h2]
      simp [not_lt.mp h2, h1]
  · by_cases h2 : obs < l
    · rw [if_neg h1, if_pos h2]
      constructor
      · intro h
        exact absurd h (by norm_num)
      · intro h
        exact absurd h.2 h1
    · rw [if_neg h1, if_neg h2]
      norm_num [h1]

/-- C4 counterexample: at an FX observation date with both boundary
standard deviations below the floor and the index observation exactly at
the upper trigger, the recorded probability is 1 (the FX intrinsic
branch uses a closed interval), while the put-difference of strictly-
below intrinsic put values stated by the claim is 0. -/
theorem fx_intrinsic_closed_at_upper_counterexample :
    (fxStdDevs A0 mktC4 cpBand 5).1 < fxMinStd ∧
    (fxStdDevs A0 mktC4 cpBand 5).2 < fxMinStd ∧
    (fxObsCalc A0 mktC4 cpBand 5 2).2.2 = 1 ∧
    specIntrinsicProbability 2 cpBand.lowerTrigger cpBand.upperTrigger = 0 := by
  refine ⟨?_, ?_, ?_, ?_⟩ <;>
    simp [fxStdDevs, fxObsCalc, specIntrinsicProbability, mktC4, cpBand, A0, fxMinStd]

/-- C4 amended: on dates with the boundary standard deviations below
the floor, the replication-capable CMS pricer computes putUpper minus
putLower with intrinsic put values (1 iff the observation is strictly
below the strike), hence probability 1 exactly when
lowerTrigger ≤ observation < upperTrigger; the FX pricer and the plain
Bachelier CMS pricer instead use one closed-interval intrinsic branch,
probability 1 exactly when lowerTrigger ≤ observation ≤ upperTrigger. -/
theorem intrinsic_branch_values
    (A : Analytic) (mktF : FxMarket) (cpF : FxCoupon) (dF : Nat) (obsF : ℚ)
    (mktC : CmsMarket) (cpC : CmsCoupon) (dC : Nat) (obsC : ℚ)
    (dR : Nat) (obsR : ℚ)
    (hF : (fxStdDevs A mktF cpF dF).1 < fxMinStd)
    (hC : (cmsStdDevs A mktC cpC dC).1 < cmsMinStd)
    (hR1 : (cmsStdDevs A mktC cpC dR).1 < cmsMinStd)
    (hR2 : (cmsStdDevs A mktC cpC dR).2 < cmsMinStd) :
    (fxObsCalc A mktF cpF dF obsF).2.2 =
      (if cpF.lowerTrigger ≤ obsF ∧ obsF ≤ cpF.upperTrigger then 1 else 0) ∧
    (cmsObsCalc A mktC cpC dC obsC).2.2 =
      (if cpC.lowerTrigger ≤ obsC ∧ obsC ≤ cpC.upperTrigger then 1 else 0) ∧
    cmsReplObsCalc A mktC cpC dR obsR =
      some ((cmsStdDevs A mktC cpC dR).1, (cmsStdDevs A mktC cpC dR).2,
        specIntrinsicProbability obsR cpC.lowerTrigger cpC.upperTrigger) ∧
    (specIntrinsicProbability obsR cpC.lowerTrigger cpC.upperTrigger = 1 ↔
      cpC.lowerTrigger ≤ obsR ∧ obsR < cpC.upperTrigger) := by
  refine ⟨?_, ?_, ?_, specIntrinsicProbability_eq_one_iff _ _ _⟩
  · simp only [fxObsCalc]
    rw [if_pos hF]
  · simp only [cmsObsCalc]
    rw [if_pos hC]
  · simp only [cmsReplObsCalc, cmsReplPut]
    rw [if_pos hR1, if_pos hR2]
    simp [specIntrinsicProbability]

/-- C4 witness at concrete inputs. -/
theorem intrinsic_branch_values_witness :
    (fxObsCalc A0 mktC4 cpBand 5 2).2.2 =
      (if cpBand.lowerTrigger ≤ (2:ℚ) ∧ (2:ℚ) ≤ cpBand.upperTrigger then 1 else 0) ∧
    (cmsObsCalc A0 cmkt0 ccp0 1 (3/2)).2.2 =
      (if ccp0.lowerTrigger ≤ (3/2 : ℚ) ∧ (3/2 : ℚ) ≤ ccp0.upperTrigger then 1 else 0) ∧
    cmsReplObsCalc A0 cmkt0 ccp0 1 (3/2) =
      some ((cmsStdDevs A0 cmkt0 ccp0 1).1, (cmsStdDevs A0 cmkt0 ccp0 1).2,
        specIntrinsicProbability (3/2) ccp0.lowerTrigger ccp0.upperTrigger) ∧
    (specIntrinsicProbability (3/2) ccp0.lowerTrigger ccp0.upperTrigger = 1 ↔
      ccp0.lowerTrigger ≤ (3/2 : ℚ) ∧ (3/2 : ℚ) < ccp0.upperTrigger) :=
  intrinsic_branch_values A0 mktC4 cpBand 5 2 cmkt0 ccp0 1 (3/2) 1 (3/2)
    (by simp [fxStdDevs, mktC4, cpBand, A0, fxMinStd])
    (by simp [cmsStdDevs, cmkt0, ccp0, A0, cmsMinStd])
    (by simp [cmsStdDevs, cmkt0, ccp0, A0, cmsMinStd])
    (by simp [cmsStdDevs, cmkt0, ccp0, A0, cmsMinStd])

/-- C5 counterexample: the derived-schedule CmsRangeAccrualFixedCoupon
constructor accepts lowerTrigger = 0 (which is ≤ 0) with no validation
error. -/
theorem cms_derived_ctor_accepts_nonpositive_lower :
    (0 : ℚ) ≤ 0 ∧ cmsCtorDerivedChecks true 0 1 = .ok () :=
  ⟨le_refl 0, rfl⟩

/-- C5 amended: all four constructors validate the schedule and index
references and lowerTrigger < upperTrigger; the two FX constructors and
the explicit-schedule CMS constructor additionally require
lowerTrigger > 0, but the derived-schedule CMS constructor omits that
check, so it succeeds for any lowerTrigger < upperTrigger. -/
theorem ctor_checks_characterization (s i : Bool) (l u : ℚ) :
    (fxCtorExplicitChecks s i l u = .ok () ↔
      s = true ∧ i = true ∧ 0 < l ∧ l < u) ∧
    (fxCtorDerivedChecks i l u = .ok () ↔ i = true ∧ 0 < l ∧ l < u) ∧
    (cmsCtorExplicitChecks s i l u = .ok () ↔
      s = true ∧ i = true ∧ 0 < l ∧ l < u) ∧
    (cmsCtorDerivedChecks i l u = .ok () ↔ i = true ∧ l < u) :=
  ⟨fxCtorExplicitChecks_ok_iff s i l u, fxCtorDerivedChecks_ok_iff i l u,
   cmsCtorExplicitChecks_ok_iff s i l u, cmsCtorDerivedChecks_ok_iff i l u⟩

lemma fxInitializePricer_results_indep (A : Analytic) (mkt : FxMarket) (cp : FxCoupon)
    (st st' : PricerState) :
    (fxInitializePricer A mkt cp st).1.additionalResults =
      (fxInitializePricer A mkt cp st').1.additionalResults := by
  unfold fxInitializePricer
  by_cases h : (fxInitLoop A mkt cp cp.observationDates 0 []).2.2 <;> simp [h]

lemma fxInitializePricer_idem (A : Analytic) (mkt : FxMarket) (cp : FxCoupon)
    (st : PricerState) :
    fxInitializePricer A mkt cp (fxInitializePricer A mkt cp st).1 =
      fxInitializePricer A mkt cp st := by
  unfold fxInitializePricer
  by_cases h : (fxInitLoop A mkt cp cp.observationDates 0 []).2.2 <;> simp [h]

lemma cmsInitializePricer_results_indep (A : Analytic) (mkt : CmsMarket) (cp : CmsCoupon)
    (st st' : PricerState) :
    (cmsInitializePricer A mkt cp st).1.additionalResults =
      (cmsInitializePricer A mkt cp st').1.additionalResults := by
  unfold cmsInitializePricer
  by_cases h : (cmsInitLoop A mkt cp cp.observationDates 0 []).2.2 <;> simp [h]

lemma cmsInitializePricer_idem (A : Analytic) (mkt : CmsMarket) (cp : CmsCoupon)
    (st : PricerState) :
    cmsInitializePricer A mkt cp (cmsInitializePricer A mkt cp st).1 =
      cmsInitializePricer A mkt cp st := by
  unfold cmsInitializePricer
  by_cases h : (cmsInitLoop A mkt cp cp.observationDates 0 []).2.2 <;> simp [h]

/-- C6: initialize is idempotent — a second call with unchanged market
data and coupon reproduces the first call's rangeAccrual and
additional-results state — and each call fully replaces the diagnostics
mapping left by any previous call (the result does not depend on the
prior state, including one left by a different coupon). -/
theorem initialize_idempotent_and_replaces
    (A : Analytic) (mktF : FxMarket) (cpF : FxCoupon) (stF stF' : PricerState)
    (mktC : CmsMarket) (cpC : CmsCoupon) (stC stC' : PricerState) :
    fxInitializePricer A mktF cpF (fxInitializePricer A mktF cpF stF).1 =
      fxInitializePricer A mktF cpF stF ∧
    (fxInitializePricer A mktF cpF stF).1.additionalResults =
      (fxInitializePricer A mktF cpF stF').1.additionalResults ∧
    cmsInitializePricer A mktC cpC (cmsInitializePricer A mktC cpC stC).1 =
      cmsInitializePricer A mktC cpC stC ∧
    (cmsInitializePricer A mktC cpC stC).1.additionalResults =
      (cmsInitializePricer A mktC cpC stC').1.additionalResults :=
  ⟨fxInitializePricer_idem A mktF cpF stF, fxInitializePricer_results_indep A mktF cpF stF stF',
   cmsInitializePricer_idem A mktC cpC stC, cmsInitializePricer_results_indep A mktC cpC stC stC'⟩

lemma fxInitializePricer_fail_rangeAccrual (A : Analytic) (mkt : FxMarket)
    (cp : FxCoupon) (ps : PricerState)
    (h : (fxInitializePricer A mkt cp ps).2 = false) :
    (fxInitializePricer A mkt cp ps).1.rangeAccrual = ps.rangeAccrual := by
  unfold fxInitializePricer at h ⊢
  by_cases hb : (fxInitLoop A mkt cp cp.observationDates 0 []).2.2 <;>
    simp [hb] at h ⊢

lemma fxPerform_fail_state (A : Analytic) (mkt : FxMarket) (cp : FxCoupon)
    (st : FxEvalState) (h : (fxPerformCalculations A mkt cp st).2 = false) :
    (fxPerformCalculations A mkt cp st).1.coupon = st.coupon ∧
    ((fxPerformCalculations A mkt cp st).1.pricer.map (fun p => p.rangeAccrual)) =
      (st.pricer.map (fun p => p.rangeAccrual)) := by
  rcases hp : st.pricer with _ | ps
  · rcases hl : fxFallbackLoop mkt cp cp.observationDates 0 with _ | v
    · simp only [fxPerformCalculations, hp, hl]
      exact ⟨trivial, trivial⟩
    · simp only [fxPerformCalculations, hp, hl] at h
      cases h
  · by_cases hb : (fxInitializePricer A mkt cp ps).2 = true
    · simp only [fxPerformCalculations, hp, hb, if_true] at h
      cases h
    · have hb' : (fxInitializePricer A mkt cp ps).2 = false := by
        rcases hF : (fxInitializePricer A mkt cp ps).2
        · rfl
        · exact absurd hF hb
      simp only [fxPerformCalculations, hp, hb', Bool.false_eq_true, if_false]
      refine ⟨trivial, ?_⟩
      show some ((fxInitializePricer A mkt cp ps).1.rangeAccrual) = some ps.rangeAccrual
      rw [fxInitializePricer_fail_rangeAccrual A mkt cp ps hb']

/-- C7 amended: if a fixing lookup fails during evaluation, the failure
surfaces synchronously (rangeAccrual() and amount() yield no value), the
coupon's cached rangeAccrual and additionalResults are unchanged, and
the pricer's rangeAccrual is unchanged (it is assigned only after the
full schedule iteration); the pricer's additional-results mapping,
however, is cleared on entry and is left holding the per-date entries of
the dates processed before the failure. -/
theorem fixing_failure_surfaces_and_preserves
    (A : Analytic) (mkt : FxMarket) (cp : FxCoupon) (st : FxEvalState)
    (h : (fxPerformCalculations A mkt cp st).2 = false) :
    fxRangeAccrualEval A mkt cp st = none ∧
    fxAmountEval A mkt cp st = none ∧
    (fxPerformCalculations A mkt cp st).1.coupon = st.coupon ∧
    ((fxPerformCalculations A mkt cp st).1.pricer.map (fun p => p.rangeAccrual)) =
      (st.pricer.map (fun p => p.rangeAccrual)) :=
  ⟨by simp [fxRangeAccrualEval, h], by simp [fxAmountEval, h],
   (fxPerform_fail_state A mkt cp st h).1, (fxPerform_fail_state A mkt cp st h).2⟩

/-- C7 counterexample: a fixing failure in the middle of the schedule
leaves the pricer's additional-results mapping changed (cleared and
partially repopulated), contradicting the claim that it is unchanged. -/
theorem pricer_partial_results_on_failure_counterexample :
    (fxPerformCalculations A0 mktFail cpFail stFail).2 = false ∧
    ((fxPerformCalculations A0 mktFail cpFail stFail).1.pricer.map
        (fun p => p.additionalResults)) ≠
      (stFail.pricer.map (fun p => p.additionalResults)) := by
  constructor <;>
    simp [fxPerformCalculations, fxInitializePricer, fxInitLoop, fxEntriesFor,
      fxObsCalc, fxStdDevs, mktFail, cpFail, stFail, A0, fxMinStd]

/-- C7 witness at concrete inputs. -/
theorem fixing_failure_surfaces_and_preserves_witness :
    fxRangeAccrualEval A0 mktFail cpFail stFail = none ∧
    fxAmountEval A0 mktFail cpFail stFail = none ∧
    (fxPerformCalculations A0 mktFail cpFail stFail).1.coupon = stFail.coupon ∧
    ((fxPerformCalculations A0 mktFail cpFail stFail).1.pricer.map
        (fun p => p.rangeAccrual)) =
      (stFail.pricer.map (fun p => p.rangeAccrual)) :=
  fixing_failure_surfaces_and_preserves A0 mktFail cpFail stFail
    (by simp [fxPerformCalculations, fxInitializePricer, fxInitLoop, fxEntriesFor,
      fxObsCalc, fxStdDevs, mktFail, cpFail, stFail, A0, fxMinStd])

/-- C8: at observation dates not past the volatility reference date both
boundary standard deviations are zero, so every pricer takes its
intrinsic-value branch (the option-formula branch with its divisions and
logarithms is not evaluated, and no error is raised). -/
theorem past_dates_zero_std_intrinsic
    (A : Analytic) (mktF : FxMarket) (cpF : FxCoupon) (dF : Nat) (obsF : ℚ)
    (mktC : CmsMarket) (cpC : CmsCoupon) (dC : Nat) (obsC : ℚ)
    (hF : dF ≤ mktF.refDate) (hC : dC ≤ mktC.refDate) :
    fxStdDevs A mktF cpF dF = (0, 0) ∧
    fxObsCalc A mktF cpF dF obsF =
      (0, 0, if cpF.lowerTrigger ≤ obsF ∧ obsF ≤ cpF.upperTrigger then 1 else 0) ∧
    cmsStdDevs A mktC cpC dC = (0, 0) ∧
    cmsObsCalc A mktC cpC dC obsC =
      (0, 0, if cpC.lowerTrigger ≤ obsC ∧ obsC ≤ cpC.upperTrigger then 1 else 0) ∧
    cmsReplObsCalc A mktC cpC dC obsC =
      some (0, 0, specIntrinsicProbability obsC cpC.lowerTrigger cpC.upperTrigger) := by
  have hF0 : fxStdDevs A mktF cpF dF = (0, 0) := by
    unfold fxStdDevs
    rw [if_neg (not_lt.mpr hF)]
  have hC0 : cmsStdDevs A mktC cpC dC = (0, 0) := by
    unfold cmsStdDevs
    rw [if_neg (not_lt.mpr hC)]
  have hmF : (0 : ℚ) < fxMinStd := by norm_num [fxMinStd]
  have hmC : (0 : ℚ) < cmsMinStd := by norm_num [cmsMinStd]
  refine ⟨hF0, ?_, hC0, ?_, ?_⟩
  · simp only [fxObsCalc, hF0]
    rw [if_pos hmF]
  · simp only [cmsObsCalc, hC0]
    rw [if_pos hmC]
  · simp only [cmsReplObsCalc, cmsReplPut, hC0]
    rw [if_pos hmC, if_pos hmC]
    simp [specIntrinsicProbability]

/-- C8 witness at concrete inputs. -/
theorem past_dates_zero_std_intrinsic_witness :
    fxStdDevs A0 mkt0 cp0 0 = (0, 0) ∧
    fxObsCalc A0 mkt0 cp0 0 (3/2) =
      (0, 0, if cp0.lowerTrigger ≤ (3/2 : ℚ) ∧ (3/2 : ℚ) ≤ cp0.upperTrigger then 1 else 0) ∧
    cmsStdDevs A0 cmkt0 ccp0 0 = (0, 0) ∧
    cmsObsCalc A0 cmkt0 ccp0 0 (3/2) =
      (0, 0, if ccp0.lowerTrigger ≤ (3/2 : ℚ) ∧ (3/2 : ℚ) ≤ ccp0.upperTrigger then 1 else 0) ∧
    cmsReplObsCalc A0 cmkt0 ccp0 0 (3/2) =
      some (0, 0, specIntrinsicProbability (3/2) ccp0.lowerTrigger ccp0.upperTrigger) :=
  past_dates_zero_std_intrinsic A0 mkt0 cp0 0 (3/2) cmkt0 ccp0 0 (3/2)
    (by simp [mkt0]) (by simp [cmkt0])

/-- C9: a pricer's rangeAccrual() before any initialize call returns the
Null of Real sentinel stored by the constructor — no error, but a value
far outside the valid fraction range [0, 1]. -/
theorem pricer_rangeAccrual_null_before_first_use :
    fxPricerRangeAccrual fxPricerCtor = nullReal ∧
    cmsPricerRangeAccrual cmsPricerCtor = nullReal ∧
    ¬ (0 ≤ nullReal ∧ nullReal ≤ 1) := by
  refine ⟨rfl, rfl, ?_⟩
  norm_num [nullReal]

lemma fxPerform_none_keeps_results (A : Analytic) (mkt : FxMarket)
    (cp : FxCoupon) (c : CouponResults)
    (h : (fxPerformCalculations A mkt cp { coupon := c, pricer := none }).2 = true) :
    (fxPerformCalculations A mkt cp
        { coupon := c, pricer := none }).1.coupon.additionalResults =
      c.additionalResults := by
  rcases hl : fxFallbackLoop mkt cp cp.observationDates 0 with _ | v
  · simp only [fxPerformCalculations, hl] at h
    cases h
  · simp only [fxPerformCalculations, hl]

/-- C10: the no-pricer fall-back updates only the coupon's rangeAccrual
and leaves its additionalResults unchanged; in particular, after a
priced computation followed by rebinding to a null pricer and successful
re-evaluation, the coupon still carries the stale diagnostics of the
earlier priced computation. -/
theorem fallback_keeps_stale_diagnostics
    (A : Analytic) (mkt : FxMarket) (cp : FxCoupon) (c0 : CouponResults)
    (st : FxEvalState) (ps : PricerState) (_hp : st.pricer = some ps)
    (_h1 : (fxPerformCalculations A mkt cp st).2 = true)
    (h2 : (fxPerformCalculations A mkt cp
            (fxSetPricer (fxPerformCalculations A mkt cp st).1 none)).2 = true)
    (h3 : (fxPerformCalculations A mkt cp { coupon := c0, pricer := none }).2 = true) :
    (fxPerformCalculations A mkt cp
        { coupon := c0, pricer := none }).1.coupon.additionalResults =
      c0.additionalResults ∧
    (fxPerformCalculations A mkt cp
        (fxSetPricer (fxPerformCalculations A mkt cp st).1 none)).1.coupon.additionalResults =
      (fxPerformCalculations A mkt cp st).1.coupon.additionalResults := by
  refine ⟨fxPerform_none_keeps_results A mkt cp c0 h3, ?_⟩
  simp only [fxSetPricer] at h2 ⊢
  exact fxPerform_none_keeps_results A mkt cp
    (fxPerformCalculations A mkt cp st).1.coupon h2

/-- C10 witness at concrete inputs. -/
theorem fallback_keeps_stale_diagnostics_witness :
    (fxPerformCalculations A0 mkt0 cp0
        { coupon := ⟨0, [(RKey.daysInRange, 99)]⟩, pricer := none }).1.coupon.additionalResults =
      (⟨0, [(RKey.daysInRange, 99)]⟩ : CouponResults).additionalResults ∧
    (fxPerformCalculations A0 mkt0 cp0
        (fxSetPricer (fxPerformCalculations A0 mkt0 cp0 stW).1 none)).1.coupon.additionalResults =
      (fxPerformCalculations A0 mkt0 cp0 stW).1.coupon.additionalResults :=
  fallback_keeps_stale_diagnostics A0 mkt0 cp0 ⟨0, [(RKey.daysInRange, 99)]⟩
    stW fxPricerCtor rfl
    (by simp [fxPerformCalculations, fxInitializePricer, fxInitLoop, fxEntriesFor,
      fxObsCalc, fxStdDevs, mkt0, cp0, stW, A0, fxMinStd])
    (by simp [fxPerformCalculations, fxSetPricer, fxInitializePricer, fxInitLoop,
      fxEntriesFor, fxObsCalc, fxStdDevs, fxFallbackLoop, mkt0, cp0, stW, A0, fxMinStd])
    (by simp [fxPerformCalculations, fxFallbackLoop, mkt0, cp0, A0, fxMinStd])
